import Mathlib

/-!
Shallow embedding of the TVM relay VM bytecode compiler
(src/relay/backend/vm/compiler.cc) and of the LLVM codegen module
(src/codegen/llvm/llvm_module.cc), for checking the natural-language
specification against the code.

Modelling conventions:
* IR nodes are modelled as a tree (`Expr`); hash-consed node identity is
  modelled by integer ids on `Var`, `GlobalVar` and `Constant` nodes.
* C++ `unordered_map`s are association lists; `insert` that does not
  overwrite an existing key is `insertNoReplace`/guarded cons.
* `LOG(FATAL)` / failed `CHECK` aborts are `Except.error`.
* The recursive visitors take an explicit fuel argument so that every
  definition is structurally recursive (hence kernel-computable); the
  source recursion is structural on the expression tree, and fuel is an
  embedding artifact.  All theorems quantify over the fuel or instantiate
  it at a value large enough for the concrete program at hand.
-/

/-- Association-list lookup keyed by decidable equality (models
`std::unordered_map::find`). -/
def lookupA {κ : Type} {α : Type} [DecidableEq κ] (k : κ) : List (κ × α) → Option α
  | [] => none
  | (k1, v) :: t => if k1 = k then some v else lookupA k t

/-- Insert that keeps an existing binding (models
`std::unordered_map::insert`, which is a no-op when the key is present). -/
def insertNoReplace (k v : Nat) (l : List (Nat × Nat)) : List (Nat × Nat) :=
  match lookupA k l with
  | some _ => l
  | none => (k, v) :: l

/-- Scalar element types appearing in the modelled tensor types. -/
inductive DType
  | float32
  | int32
  | int64
  | boolT
deriving DecidableEq

/-- Checked types carried by the IR: `TensorType` (dtype plus static shape),
`TupleType`, and an opaque function type. -/
inductive Ty
  | tensor (dtype : DType) (shape : List Int)
  | tuple (fields : List Ty)
  | fnTy

/-- The relay expression variants handled by the VM compiler
(`tvm::relay::Expr`).  A `call` carries its cached `checked_type`. -/
inductive Expr
  | var (id : Nat)
  | globalVar (id : Nat)
  | const (id : Nat)
  | tuple (fields : List Expr)
  | tupleGetItem (t : Expr) (index : Nat)
  | letE (v : Nat) (value : Expr) (body : Expr)
  | ifE (cond : Expr) (tBranch : Expr) (fBranch : Expr)
  | call (op : Expr) (args : List Expr) (checkedType : Ty)
  | funcE (params : List (Nat × Ty)) (body : Expr) (isPrim : Bool)
  | constructorE (tag : Nat)
  | matchE

/-- A module: mapping from global-var id to its (function) expression,
in module iteration order. -/
abbrev ModuleT := List (Nat × Expr)

/-- Host CPU device type (`kDLCPU`). -/
def kDLCPU : Nat := 1

/-- A shape tensor (an `NDArray`): its own shape, dtype, int64 contents and
the device it is allocated on. -/
structure ShapeTensor where
  shape : List Int
  dtype : DType
  data : List Int
  devType : Nat
  devId : Nat
deriving DecidableEq

/-- ConstantPool::GetTensorConstant: synthesize the 1-D int64 shape tensor
holding the static extents of a tensor type, on the host CPU. -/
def getTensorConstant (extents : List Int) : ShapeTensor :=
  { shape := [(extents.length : Int)]
    dtype := DType.int64
    data := extents
    devType := kDLCPU
    devId := 0 }

/-- Key of the `ConstTensorShapeMap`: a tensor type (dtype, static shape). -/
abbrev TKey := DType × List Int

/-- The shape-tensor map: tensor type to (constant index, shape tensor). -/
abbrev ShapeMapT := List (TKey × (Nat × ShapeTensor))

/-- State of the `ConstantPool` visitor: visited globals, `const_map`,
`const_tensor_shape_map`, and the single running index counter. -/
structure CPState where
  visited : List Nat
  constMap : List (Nat × Nat)
  shapeMap : ShapeMapT
  index : Nat
deriving DecidableEq

/-- ConstantPool::AddConstantTensorShape: first registration of a tensor
type claims the next constant index; duplicates reuse the first one. -/
def addConstantTensorShape (key : TKey) (value : ShapeTensor) (s : CPState) : CPState :=
  match lookupA key s.shapeMap with
  | some _ => s
  | none =>
    { s with shapeMap := (key, (s.index, value)) :: s.shapeMap, index := s.index + 1 }

/-- The shape-synthesis step of ConstantPool::VisitExpr_(CallNode): when the
callee is a `Function` literal, register a shape tensor for a `TensorType`
checked type, or one per field for a `TupleType` of tensor types.  (For a
non-tensor tuple field the source dereferences a null pointer; such inputs
are modelled as skipped and never arise in the claims.) -/
def cpCallShapes (op : Expr) (ty : Ty) (s : CPState) : CPState :=
  match op with
  | .funcE _ _ _ =>
    match ty with
    | .tensor dt sh => addConstantTensorShape (dt, sh) (getTensorConstant sh) s
    | .tuple fs =>
      fs.foldl
        (fun acc f =>
          match f with
          | .tensor dt sh => addConstantTensorShape (dt, sh) (getTensorConstant sh) acc
          | _ => acc)
        s
    | .fnTy => s
  | _ => s

/-- The `ConstantPool` expression visitor.  On `Constant`, assign the next
index if unseen; on `Call`, visit only the arguments and then synthesize
shape tensors; on `GlobalVar`, follow the module reference once (tracked by
the visited set; a missing global aborts in the source and is modelled as a
no-op, which no claim exercises).  All other nodes recurse into children as
the default `ExprVisitor` does. -/
def cpVisit (m : ModuleT) : Nat → Expr → CPState → CPState
  | 0, _, s => s
  | fuel + 1, e, s =>
    match e with
    | .var _ => s
    | .globalVar g =>
      if s.visited.contains g then s
      else
        match lookupA g m with
        | some fe => cpVisit m fuel fe { s with visited := g :: s.visited }
        | none => s
    | .const cid =>
      match lookupA cid s.constMap with
      | some _ => s
      | none => { s with constMap := (cid, s.index) :: s.constMap, index := s.index + 1 }
    | .tuple fields => fields.foldl (fun acc f => cpVisit m fuel f acc) s
    | .tupleGetItem t _ => cpVisit m fuel t s
    | .letE _ v b => cpVisit m fuel b (cpVisit m fuel v s)
    | .ifE c t f => cpVisit m fuel f (cpVisit m fuel t (cpVisit m fuel c s))
    | .call op args ty => cpCallShapes op ty (args.foldl (fun acc a => cpVisit m fuel a acc) s)
    | .funcE _ body _ => cpVisit m fuel body s
    | .constructorE _ => s
    | .matchE => s

/-- LayoutConstantPool: run the pool visitor from every global of the
module, in module iteration order, and return the two maps. -/
def layoutConstantPool (m : ModuleT) (fuel : Nat) : List (Nat × Nat) × ShapeMapT :=
  let st := m.foldl (fun acc p => cpVisit m fuel (.globalVar p.1) acc)
    { visited := [], constMap := [], shapeMap := [], index := 0 }
  (st.constMap, st.shapeMap)

/-- VM bytecode instructions (`tvm::runtime::vm::Instruction`), payloads as
in the source.  `If` offsets and the `Goto` offset are emitted as
placeholders `0` and patched afterwards; all emitted offsets are
non-negative, so they are modelled as `Nat`. -/
inductive Instr
  | loadConst (constIdx : Nat) (dst : Nat)
  | allocTensor (shapeReg : Nat) (dtype : DType) (dst : Nat)
  | allocDatatype (tag : Nat) (arity : Nat) (fieldsR : List Nat) (dst : Nat)
  | allocClosure (funcIdx : Nat) (arity : Nat) (argsR : List Nat) (dst : Nat)
  | getField (src : Nat) (fieldIdx : Nat) (dst : Nat)
  | move (src : Nat) (dst : Nat)
  | invoke (funcIdx : Nat) (argsR : List Nat) (dst : Nat)
  | invokeClosure (closureReg : Nat) (argsR : List Nat) (dst : Nat)
  | invokePacked (packedIdx : Nat) (arity : Nat) (retCount : Nat) (packedArgs : List Nat)
  | select (condR : Nat) (tR : Nat) (fR : Nat) (dst : Nat)
  | ifInstr (condR : Nat) (trueOffset : Nat) (falseOffset : Nat)
  | goto (pcOffset : Nat)
  | ret (src : Nat)
deriving DecidableEq

/-- Errors: every `LOG(FATAL)` / failed `CHECK` of the compiler, plus the
out-of-fuel artifact of the embedding. -/
inductive Err
  | outOfFuel
  | missingConst
  | missingVar
  | missingGlobal
  | matchUnsupported
  | loadGlobalUnsupported
  | localFunction
  | unsupportedCallee
  | notPrimitive
  | arityMismatch
  | unsupportedParamTy
  | unsupportedRetTy
  | nestedTuple
  | noDefault
deriving DecidableEq

/-- Kernels returned by the compile engine are identified by an integer
(the engine, `compile_engine.h`, is outside the provided sources; the spec
treats it as an opaque service returning one kernel object per lowered
primitive, modelled as a function `Expr → Nat` given to the compiler). -/
abbrev Kernel := Nat

/-- The `VMCompilerContext` fields the compiler reads and writes. -/
structure Ctx where
  module : ModuleT
  globalMap : List (Nat × Nat)
  constMap : List (Nat × Nat)
  shapeMap : ShapeMapT
  loweredFuncs : List Kernel
  seenFuncs : List (Kernel × Nat)

/-- Per-function compiler state (`VMCompiler` fields). -/
structure CompSt where
  instructions : List Instr
  varRegisterMap : List (Nat × Nat)
  lastRegister : Nat
  registersNum : Nat
  ctx : Ctx

/-- The register named by `last_register` after `Emit` of an instruction:
the destination for destination-carrying opcodes,
`packed_args[arity - 1]` for `InvokePacked` (the source indexes the vector
directly; all emitted instances have `arity = packed_args.length ≥ 1`),
unchanged for `If`, `Goto`, `Ret`. -/
def Instr.emitLast (i : Instr) (last : Nat) : Nat :=
  match i with
  | .loadConst _ d => d
  | .allocTensor _ _ d => d
  | .allocDatatype _ _ _ d => d
  | .allocClosure _ _ _ d => d
  | .getField _ _ d => d
  | .move _ d => d
  | .invoke _ _ d => d
  | .invokeClosure _ _ d => d
  | .invokePacked _ ar _ regs => regs.getD (ar - 1) 0
  | .select _ _ _ d => d
  | .ifInstr _ _ _ => last
  | .goto _ => last
  | .ret _ => last

/-- VMCompiler::Emit: append the instruction and update `last_register`. -/
def emit (i : Instr) (s : CompSt) : CompSt :=
  { s with
    instructions := s.instructions ++ [i]
    lastRegister := i.emitLast s.lastRegister }

/-- VMCompiler::NewRegister: return the next register and bump the count. -/
def newRegister (s : CompSt) : Nat × CompSt :=
  (s.registersNum, { s with registersNum := s.registersNum + 1 })

/-- Patch the `true_offset`/`false_offset` fields of the instruction at a
given position (the source writes the union fields in place; at the patched
position the opcode is always `If`). -/
def patchIfAt (i : Nat) (t f : Nat) (l : List Instr) : List Instr :=
  l.set i
    (match l.getD i (.goto 0) with
     | .ifInstr c _ _ => .ifInstr c t f
     | other => other)

/-- Patch the `pc_offset` field of the instruction at a given position (at
the patched position the opcode is always `Goto`). -/
def patchGotoAt (i : Nat) (off : Nat) (l : List Instr) : List Instr :=
  l.set i
    (match l.getD i (.goto 0) with
     | .goto _ => .goto off
     | other => other)

/-- VMCompiler::AllocTensorFromType: if the tensor type has a registered
shape tensor, emit `LoadConst(shape_idx, newreg)` (on a miss the source
only logs and skips the load); then return — without emitting — an
`AllocTensor(last_register, dtype, newreg)` instruction. -/
def allocTensorFromType (dt : DType) (sh : List Int) (s : CompSt) : Instr × CompSt :=
  let s1 :=
    match lookupA (dt, sh) s.ctx.shapeMap with
    | none => s
    | some p =>
      let (r, sa) := newRegister s
      emit (.loadConst p.1 r) sa
  let (r2, s2) := newRegister s1
  (.allocTensor s1.lastRegister dt r2, s2)

/-- Destination register of a (collected, not yet emitted) alloc
instruction; only applied to `AllocTensor` instructions. -/
def Instr.dstOf : Instr → Nat
  | .allocTensor _ _ d => d
  | .loadConst _ d => d
  | .allocDatatype _ _ _ d => d
  | .allocClosure _ _ _ d => d
  | .getField _ _ d => d
  | .move _ d => d
  | .invoke _ _ d => d
  | .invokeClosure _ _ d => d
  | .select _ _ _ d => d
  | _ => 0

/-- Flattening of one `TupleType` kernel parameter: one `GetField` per
component into a fresh register; a non-tensor component is a fatal
`CHECK` (nested tuples unsupported). -/
def flattenTupleFields (fields : List Ty) (srcReg : Nat) (fIdx : Nat) (acc : List Nat)
    (s : CompSt) : Except Err (List Nat × CompSt) :=
  match fields with
  | [] => .ok (acc, s)
  | fty :: rest =>
    match fty with
    | .tensor _ _ =>
      let (dst, s1) := newRegister s
      let s2 := emit (.getField srcReg fIdx dst) s1
      flattenTupleFields rest srcReg (fIdx + 1) (acc ++ [dst]) s2
    | _ => .error .nestedTuple

/-- Argument flattening of EmitInvokePrimitive: `TensorType` parameters
pass their register through, `TupleType` parameters are unpacked
field-by-field, anything else is fatal; a parameter/argument count
mismatch is the `CHECK_EQ` at entry. -/
def flattenParams (params : List (Nat × Ty)) (argRegs : List Nat) (acc : List Nat)
    (arity : Nat) (s : CompSt) : Except Err (List Nat × Nat × CompSt) :=
  match params, argRegs with
  | [], [] => .ok (acc, arity, s)
  | (_, ty) :: ps, r :: rs =>
    match ty with
    | .tensor _ _ => flattenParams ps rs (acc ++ [r]) (arity + 1) s
    | .tuple fields =>
      match flattenTupleFields fields r 0 acc s with
      | .error e => .error e
      | .ok (acc2, s2) => flattenParams ps rs acc2 (arity + fields.length) s2
    | .fnTy => .error .unsupportedParamTy
  | _, _ => .error .arityMismatch

/-- Output allocation for a `TupleType` return: one collected
`AllocTensor` per field (each call emits its `LoadConst` eagerly); the
source dereferences a null pointer on a non-tensor field, modelled as a
fatal error. -/
def allocTupleReturns (fields : List Ty) (s : CompSt) : Except Err (List Instr × CompSt) :=
  match fields with
  | [] => .ok ([], s)
  | f :: rest =>
    match f with
    | .tensor dt sh =>
      let (a, s1) := allocTensorFromType dt sh s
      match allocTupleReturns rest s1 with
      | .error e => .error e
      | .ok (more, s2) => .ok (a :: more, s2)
    | _ => .error .unsupportedRetTy

/-- Output allocation of EmitInvokePrimitive: `TensorType` return gives one
alloc, `TupleType` one per field, anything else is fatal. -/
def allocReturns (retTy : Ty) (s : CompSt) : Except Err (List Instr × CompSt) :=
  match retTy with
  | .tensor dt sh =>
    let (a, s1) := allocTensorFromType dt sh s
    .ok ([a], s1)
  | .tuple fields => allocTupleReturns fields s
  | .fnTy => .error .unsupportedRetTy

/-- Emit the collected alloc instructions, appending each destination
register to the flattened argument registers. -/
def emitAllocs (allocs : List Instr) (acc : List Nat) (s : CompSt) : List Nat × CompSt :=
  match allocs with
  | [] => (acc, s)
  | a :: rest => emitAllocs rest (acc ++ [a.dstOf]) (emit a s)

/-- VMCompiler::EmitInvokePrimitive: flatten arguments, allocate outputs,
lower the primitive through the (opaque, deterministic) compile engine,
deduplicate the kernel in `seen_funcs` / `lowered_funcs`, emit
`InvokePacked`, and repack a tuple return into a datatype value.  The
source checks `func->IsPrimitive()` just before lowering. -/
def emitInvokePrimitive (lp : Expr → Kernel) (fparams : List (Nat × Ty)) (fbody : Expr)
    (isPrim : Bool) (argRegs : List Nat) (retTy : Ty) (s : CompSt) :
    Except Err CompSt :=
  match flattenParams fparams argRegs [] 0 s with
  | .error e => .error e
  | .ok (unpacked, arity, s1) =>
    match allocReturns retTy s1 with
    | .error e => .error e
    | .ok (allocs, s2) =>
      let rvc := allocs.length
      let arity2 := arity + rvc
      let (unpacked2, s3) := emitAllocs allocs unpacked s2
      if isPrim then
        let kernel := lp (Expr.funcE fparams fbody isPrim)
        let (opIndex, s4) :=
          match lookupA kernel s3.ctx.seenFuncs with
          | none =>
            let idx := s3.ctx.loweredFuncs.length
            (idx,
              { s3 with
                ctx :=
                  { s3.ctx with
                    loweredFuncs := s3.ctx.loweredFuncs ++ [kernel]
                    seenFuncs := (kernel, idx) :: s3.ctx.seenFuncs } })
          | some idx => (idx, s3)
        let s5 := emit (.invokePacked opIndex arity2 rvc unpacked2) s4
        if 1 < rvc then
          let fieldsR := unpacked2.drop (arity2 - rvc)
          let (r, s6) := newRegister s5
          .ok (emit (.allocDatatype 0 rvc fieldsR r) s6)
        else .ok s5
      else .error .notPrimitive

/-- Sequential compilation of a list of expressions by a given step
function, collecting each expression's result register
(`last_register` after its visit). -/
def compileArgsWith (step : Expr → CompSt → Except Err CompSt) :
    List Expr → CompSt → List Nat → Except Err (List Nat × CompSt)
  | [], s, acc => .ok (acc, s)
  | e :: rest, s, acc =>
    match step e s with
    | .error err => .error err
    | .ok s1 => compileArgsWith step rest s1 (acc ++ [s1.lastRegister])

/-- IsClosure.  Modelled from the spec: `IsClosure` is declared in the
compiler but defined in the lambda-lifting pass, which is not among the
provided sources; the spec defines a top-level function to be a closure
iff its body is itself a `Function` (the shape produced by lambda
lifting). -/
def isClosure (e : Expr) : Bool :=
  match e with
  | .funcE _ body _ =>
    match body with
    | .funcE _ _ _ => true
    | _ => false
  | _ => false

/-- Parameter list of a function expression. -/
def funcParams : Expr → List (Nat × Ty)
  | .funcE ps _ _ => ps
  | _ => []

/-- Body of a function expression. -/
def funcBody : Expr → Expr
  | .funcE _ b _ => b
  | e => e

/-- VMCompiler::VisitExpr: the per-variant lowering rules of the source,
with an explicit fuel (see the module comment).  `Constant` loads its pool
index into a fresh register; `Var` only renames `last_register`; `Let`
binds without a `Move`; `If` emits placeholder `If`/`Goto`, patches them
after both branches, and converges with `Select`; `Call` dispatches on the
callee; a bare primitive `Function` is a no-op; `GlobalVar` loads,
non-primitive local functions, `Match` and other callees are fatal. -/
def compileExpr (lp : Expr → Kernel) : Nat → Expr → CompSt → Except Err CompSt
  | 0, _, _ => .error .outOfFuel
  | fuel + 1, e, s =>
    match e with
    | .const cid =>
      match lookupA cid s.ctx.constMap with
      | none => .error .missingConst
      | some idx =>
        let (r, s1) := newRegister s
        .ok (emit (.loadConst idx r) s1)
    | .var v =>
      match lookupA v s.varRegisterMap with
      | none => .error .missingVar
      | some r => .ok { s with lastRegister := r }
    | .tuple fields =>
      match compileArgsWith (compileExpr lp fuel) fields s [] with
      | .error err => .error err
      | .ok (regs, s1) =>
        let (r, s2) := newRegister s1
        .ok (emit (.allocDatatype 0 fields.length regs r) s2)
    | .matchE => .error .matchUnsupported
    | .letE v value body =>
      match compileExpr lp fuel value s with
      | .error err => .error err
      | .ok s1 =>
        let s2 := { s1 with varRegisterMap := insertNoReplace v s1.lastRegister s1.varRegisterMap }
        compileExpr lp fuel body s2
    | .tupleGetItem t idx =>
      match compileExpr lp fuel t s with
      | .error err => .error err
      | .ok s1 =>
        let tupleReg := s1.lastRegister
        let (r, s2) := newRegister s1
        .ok (emit (.getField tupleReg idx r) s2)
    | .globalVar _ => .error .loadGlobalUnsupported
    | .ifE cond tBranch fBranch =>
      match compileExpr lp fuel cond s with
      | .error err => .error err
      | .ok s1 =>
        let condReg := s1.lastRegister
        let afterCond := s1.instructions.length
        let s2 := emit (.ifInstr condReg 0 0) s1
        match compileExpr lp fuel tBranch s2 with
        | .error err => .error err
        | .ok s3 =>
          let trueReg := s3.lastRegister
          let s4 := emit (.goto 0) s3
          let afterTrue := s4.instructions.length
          match compileExpr lp fuel fBranch s4 with
          | .error err => .error err
          | .ok s5 =>
            let falseReg := s5.lastRegister
            let afterFalse := s5.instructions.length
            let s6 := { s5 with
              instructions := patchIfAt afterCond 1 (afterTrue - afterCond) s5.instructions }
            let s7 := { s6 with
              instructions :=
                patchGotoAt (afterTrue - 1) ((afterFalse - afterTrue) + 1) s6.instructions }
            let (r, s8) := newRegister s7
            .ok (emit (.select condReg trueReg falseReg r) s8)
    | .call op args ty =>
      match compileArgsWith (compileExpr lp fuel) args s [] with
      | .error err => .error err
      | .ok (argRegs, s1) =>
        match op with
        | .funcE ps b prim =>
          if prim then emitInvokePrimitive lp ps b prim argRegs ty s1
          else .error .notPrimitive
        | .globalVar g =>
          match lookupA g s1.ctx.globalMap with
          | none => .error .missingGlobal
          | some gidx =>
            match lookupA g s1.ctx.module with
            | none => .error .missingGlobal
            | some fn =>
              if isClosure fn then
                let ar := (funcParams fn).length
                let (r, s2) := newRegister s1
                .ok (emit (.allocClosure gidx ar argRegs r) s2)
              else
                let (r, s2) := newRegister s1
                .ok (emit (.invoke gidx argRegs r) s2)
        | .constructorE tag =>
          let (r, s2) := newRegister s1
          .ok (emit (.allocDatatype tag args.length argRegs r) s2)
        | .var v =>
          match lookupA v s1.varRegisterMap with
          | none => .error .missingVar
          | some vr =>
            let s2 := { s1 with lastRegister := vr }
            let (r, s3) := newRegister s2
            .ok (emit (.invokeClosure vr argRegs r) s3)
        | _ => .error .unsupportedCallee
    | .funcE _ _ prim =>
      if prim then .ok s else .error .localFunction
    | .constructorE _ => .error .noDefault

/-- Bind a parameter list to consecutive fresh registers (the
`NewRegister` + `var_register_map.insert` loops of `Compile` and
`CompileClosure`). -/
def bindParams (ps : List (Nat × Ty)) (s : CompSt) : CompSt :=
  ps.foldl
    (fun acc p =>
      let (r, s1) := newRegister acc
      { s1 with varRegisterMap := insertNoReplace p.1 r s1.varRegisterMap })
    s

/-- VMCompiler::Compile / CompileClosure: for a closure, bind the inner
function's parameters first, then the outer (captured) parameters, and
compile the inner body; otherwise bind the parameters and compile the
body. -/
def compileFuncBody (lp : Expr → Kernel) (fuel : Nat) (fexpr : Expr) (s : CompSt) :
    Except Err CompSt :=
  match fexpr with
  | .funcE ps body _ =>
    if isClosure fexpr then
      let s1 := bindParams (funcParams body) s
      let s2 := bindParams ps s1
      compileExpr lp fuel (funcBody body) s2
    else
      compileExpr lp fuel body (bindParams ps s)
  | _ => .error .localFunction

/-- A compiled VM function: name (the global-var id), stored parameter
count, instructions, register count. -/
structure VMFunction where
  name : Nat
  paramsCount : Nat
  instructions : List Instr
  registersNum : Nat
deriving DecidableEq

/-- CompileFunc: fresh compiler over the shared context, compile the
function, append `Ret(last_register)`; a closure stores
`outer + inner` parameters, otherwise the function's own count. -/
def compileFunc (lp : Expr → Kernel) (fuel : Nat) (ctx : Ctx) (gvar : Nat) (fexpr : Expr) :
    Except Err (VMFunction × Ctx) :=
  let params := (funcParams fexpr).length
  let s0 : CompSt :=
    { instructions := [], varRegisterMap := [], lastRegister := 0, registersNum := 0, ctx := ctx }
  match compileFuncBody lp fuel fexpr s0 with
  | .error e => .error e
  | .ok s1 =>
    let instrs := s1.instructions ++ [.ret s1.lastRegister]
    let count :=
      if isClosure fexpr then params + (funcParams (funcBody fexpr)).length else params
    .ok ({ name := gvar, paramsCount := count, instructions := instrs,
           registersNum := s1.registersNum }, s1.ctx)

/-- Compile every function of the module in iteration order, threading the
shared context (its `lowered_funcs` / `seen_funcs` mutate across
functions). -/
def compileFuncs (lp : Expr → Kernel) (fuel : Nat) :
    ModuleT → Ctx → Except Err (List VMFunction × Ctx)
  | [], ctx => .ok ([], ctx)
  | (g, fe) :: rest, ctx =>
    match compileFunc lp fuel ctx g fe with
    | .error e => .error e
    | .ok (vf, ctx1) =>
      match compileFuncs lp fuel rest ctx1 with
      | .error e => .error e
      | .ok (vfs, ctx2) => .ok (vf :: vfs, ctx2)

/-- PopulateGlobalMap: each global gets the next dense index in module
iteration order. -/
def populateGlobalMap (m : ModuleT) : List (Nat × Nat) :=
  m.enum.map (fun p => (p.2.1, p.1))

/-- An entry of the program's constant array: a literal tensor (identified
by its constant node id) or a synthesized shape tensor; `emptyObj` is the
value left by `resize` before the fill. -/
inductive ConstObj
  | emptyObj
  | tensorData (constId : Nat)
  | tensorShape (st : ShapeTensor)
deriving DecidableEq

/-- The constant-array fill of CompileModule: resize to
`|ConstMap| + |ShapeMap|`, then store each literal constant and each shape
tensor at its assigned index.  The two iteration orders are explicit
arguments because the source iterates two `unordered_map`s here — this is
the one place where hash-map iteration order could influence the output. -/
def fillConstants (n : Nat) (cmIter : List (Nat × Nat)) (smIter : ShapeMapT) : List ConstObj :=
  let base := List.replicate n ConstObj.emptyObj
  let afterConsts := cmIter.foldl (fun acc p => acc.set p.2 (ConstObj.tensorData p.1)) base
  smIter.foldl (fun acc p => acc.set p.2.1 (ConstObj.tensorShape p.2.2)) afterConsts

/-- A compiled VM program: functions (indexed by global index), constant
array, kernel table, and name-to-index map.  Kernel handles are the
`lowered_funcs` ids (their resolution into packed functions goes through
the external codegen backend). -/
structure VMProgram where
  functions : List VMFunction
  constants : List ConstObj
  packedFuncs : List Kernel
  globalMapName : List (Nat × Nat)
deriving DecidableEq

/-- CompileModule, with the `unordered_map` iteration orders used by the
constant-array fill taken as explicit inputs (the source iterates
`context.const_map` and `context.const_tensor_shape_map` whose order the
container does not specify).  The pass pipeline (`OptimizeModule`) lives
outside the provided sources; the input module is taken in post-pipeline
form, as in the spec's scenarios. -/
def compileModuleIter (lp : Expr → Kernel) (fuel : Nat) (m : ModuleT)
    (cmIter : List (Nat × Nat)) (smIter : ShapeMapT) : Except Err VMProgram :=
  let globalMap := populateGlobalMap m
  let pool := layoutConstantPool m fuel
  let constants := fillConstants (pool.1.length + pool.2.length) cmIter smIter
  let ctx : Ctx :=
    { module := m, globalMap := globalMap, constMap := pool.1, shapeMap := pool.2,
      loweredFuncs := [], seenFuncs := [] }
  match compileFuncs lp fuel m ctx with
  | .error e => .error e
  | .ok (vfs, ctx1) =>
    .ok { functions := vfs, constants := constants,
          packedFuncs := ctx1.loweredFuncs, globalMapName := globalMap }

/-- CompileModule with the canonical iteration orders (the association
lists as built). -/
def compileModule (lp : Expr → Kernel) (fuel : Nat) (m : ModuleT) : Except Err VMProgram :=
  compileModuleIter lp fuel m (layoutConstantPool m fuel).1 (layoutConstantPool m fuel).2

deriving instance DecidableEq for Except

/-- The well-known main-entry symbol name
(`runtime::symbol::tvm_module_main`). -/
def tvmModuleMain : String := "__tvm_main__"

/-- A parsed textual-IR (`.ll`) file: the embedded module flags, the module
triple and the function symbols (LLVM prints module flags into the textual
form, so they survive a save/load round trip). -/
structure IRFile where
  flags : List (String × String)
  triple : String
  funcNames : List String

/-- State of an `LLVMModuleNode`: the `target_` member, the entry-function
name, the (lazily created) execution engine modelled as a symbol-to-address
map, the functions present in the LLVM module, the module flags, the module
triple, and the target string the `TargetMachine` `tm_` was created from
(`none` while `tm_` is null). -/
structure LLVMState where
  target : String
  entryFunc : String
  ee : Option (String → Nat)
  modFuncs : List String
  moduleFlags : List (String × String)
  triple : String
  tmTarget : Option String

/-- A freshly constructed `LLVMModuleNode`: empty strings, null engine and
target machine. -/
def initialLLVMState : LLVMState :=
  { target := "", entryFunc := "", ee := none, modFuncs := [], moduleFlags := [],
    triple := "", tmTarget := none }

/-- LLVMModuleNode::Init: build the module from the lowered functions,
record the first function's name as the entry symbol, embed the module
flags `tvm_target`, `Debug Info Version` and `Dwarf Version`, and store the
target string in the member `target_`.  (The code generator itself is
external; only the state this file manipulates is modelled.  The source
`CHECK`s that the function list is nonempty.) -/
def llvmInit (funcNames : List String) (target : String) (triple : String) : LLVMState :=
  { target := target
    entryFunc := funcNames.headD ""
    ee := none
    modFuncs := funcNames
    moduleFlags :=
      [("tvm_target", target), ("Debug Info Version", "3"), ("Dwarf Version", "2")]
    triple := triple
    tmTarget := some target }

/-- Saving the module as textual IR (`SaveToFile` / `GetSource` with format
`ll`): the emitted file carries the module flags, triple and symbols. -/
def saveLL (s : LLVMState) : IRFile :=
  { flags := s.moduleFlags, triple := s.triple, funcNames := s.modFuncs }

/-- The target string LoadIR recovers into its local variable: the
`tvm_target` module flag, else `llvm -target <triple>` synthesized from the
module triple. -/
def loadIRRecoveredTarget (f : IRFile) : String :=
  match lookupA "tvm_target" f.flags with
  | some t => t
  | none => "llvm -target " ++ f.triple

/-- LLVMModuleNode::LoadIR: parse the file, recover the target string and
create the target machine from it.  The source declares a LOCAL variable
`std::string target_;` that shadows the member of the same name: the
recovered string only reaches `tm_`, while the member `target_` (used later
by `LazyInitJIT`) keeps its previous value — for a freshly constructed
module, the empty string. -/
def loadIR (f : IRFile) (s : LLVMState) : LLVMState :=
  { s with
    modFuncs := f.funcNames
    moduleFlags := f.flags
    triple := f.triple
    tmTarget := some (loadIRRecoveredTarget f) }

/-- Observable side effects of `GetFunction`: triggering lazy JIT
initialization, and acquiring the module mutex. -/
inductive Eff
  | initJIT
  | lockMutex
deriving DecidableEq

/-- Result of `GetFunction`: the empty `PackedFunc()` (absent callable),
the boolean-returning closure of the system-module query, or a wrapped
kernel entry point. -/
inductive PackedFuncR
  | emptyPF
  | boolFunc (b : Bool)
  | wrapped (addr : Nat)
deriving DecidableEq

/-- LLVMModuleNode::GetFunctionAddr: null unless the function exists in the
module, else the engine's address for it.  (The source reaches the engine
dereference only after `LazyInitJIT`.) -/
def getFunctionAddr (s : LLVMState) (name : String) : Nat :=
  if s.modFuncs.contains name then
    match s.ee with
    | some eng => eng name
    | none => 0
  else 0

/-- LLVMModuleNode::GetFunction.  The special name
`__tvm_is_system_module` answers immediately — before the lazy-JIT check
and before the mutex is taken — from the presence of the
`__tvm_module_startup` symbol.  Any other name first initializes the JIT
if the engine is null (`jit` abstracts `LazyInitJIT`, which can abort
fatally), then, under the mutex, aliases the well-known main-entry name to
the module's entry symbol, looks the symbol address up, and returns the
empty callable when it is null. -/
def getFunction (jit : LLVMState → Except Unit LLVMState) (s : LLVMState) (name : String) :
    Except Unit (PackedFuncR × LLVMState × List Eff) :=
  if name = "__tvm_is_system_module" then
    .ok (.boolFunc (s.modFuncs.contains "__tvm_module_startup"), s, [])
  else
    match
      (match s.ee with
       | none =>
         match jit s with
         | .ok s1 => Except.ok (s1, [Eff.initJIT])
         | .error e => Except.error e
       | some _ => Except.ok (s, ([] : List Eff))) with
    | .error e => .error e
    | .ok (s1, effs) =>
      let fname := if name = tvmModuleMain then s1.entryFunc else name
      let faddr := getFunctionAddr s1 fname
      .ok ((if faddr = 0 then .emptyPF else .wrapped faddr), s1, effs ++ [.lockMutex])

/-- A trivial compile-engine model: every primitive lowers to kernel 0. -/
def lp0 : Expr → Kernel := fun _ => 0

/-- The tensor type `Tensor[float32, (4)]`. -/
def tFloat4 : Ty := .tensor .float32 [4]

/-- The primitive `prim_add` of the spec's second scenario. -/
def primAdd : Expr := .funcE [(10, tFloat4), (11, tFloat4)] (.var 10) true

/-- The function `fn(x, y : Tensor[float32, (4)]) := prim_add(x, y)`. -/
def addFn : Expr :=
  .funcE [(20, tFloat4), (21, tFloat4)] (.call primAdd [.var 20, .var 21] tFloat4) false

/-- A module holding only `addFn`. -/
def addMod : ModuleT := [(0, addFn)]

/-- The boolean scalar tensor type. -/
def condTy : Ty := .tensor .boolT []

/-- The function `fn(c : bool, a, b : T) := if c then a else b` of the
spec's if-then-else scenario. -/
def ifFn : Expr :=
  .funcE [(30, condTy), (31, tFloat4), (32, tFloat4)]
    (.ifE (.var 30) (.var 31) (.var 32)) false

/-- A module holding only `ifFn`. -/
def ifMod : ModuleT := [(0, ifFn)]

/-- A function whose body is a tuple of two distinct constants (used to
exercise the constant pool with two entries). -/
def twoConstFn : Expr :=
  .funcE [(40, tFloat4)] (.tuple [.const 100, .const 101]) false

/-- A module holding only `twoConstFn`. -/
def twoConstMod : ModuleT := [(0, twoConstFn)]

/-- A lifted closure: two captured (outer) parameters, three inner
parameters, inner body referring to an inner parameter. -/
def closureFn : Expr :=
  .funcE [(4, tFloat4), (5, tFloat4)]
    (.funcE [(1, tFloat4), (2, tFloat4), (3, tFloat4)] (.var 1) false) false

/-- A primitive function literal whose BODY contains a constant node
(id 7); used as a call head only. -/
def primWithConst : Expr := .funcE [] (.const 7) true

/-- A call whose callee contains constant 7 but whose arguments are empty. -/
def callWithConstCallee : Expr := .call primWithConst [] tFloat4

/-- The constant indices handed out so far: those of the literal constants
followed by those of the shape tensors. -/
def cpIndices (s : CPState) : List Nat :=
  s.constMap.map Prod.snd ++ s.shapeMap.map (fun p => p.2.1)

/-- Invariant of the constant pool: the counter equals the total number of
entries of the two maps, and the indices handed out are exactly
`0, …, index - 1` (in some order). -/
def CPInv (s : CPState) : Prop :=
  s.index = s.constMap.length + s.shapeMap.length ∧ (cpIndices s).Perm (List.range s.index)

/-- Invariant of the shape map: every registered tensor is the shape
tensor synthesized from its key type. -/
def ShapeEntriesOk (s : CPState) : Prop :=
  ∀ p ∈ s.shapeMap, p.2.2 = getTensorConstant p.1.2

theorem lookupA_eq_some_mem {κ α : Type} [DecidableEq κ] {k : κ} {v : α} :
    ∀ {l : List (κ × α)}, lookupA k l = some v → (k, v) ∈ l := by
  intro l
  induction l with
  | nil => intro h; simp [lookupA] at h
  | cons p t ih =>
    intro h
    obtain ⟨k1, v1⟩ := p
    by_cases hk : k1 = k
    · subst hk
      simp [lookupA] at h
      subst h
      exact List.mem_cons_self _ _
    · simp [lookupA, hk] at h
      exact List.mem_cons_of_mem _ (ih h)

theorem foldl_preserve {α σ : Type} (P : σ → Prop) (g : σ → α → σ)
    (hstep : ∀ s a, P s → P (g s a)) :
    ∀ (l : List α) (s : σ), P s → P (l.foldl g s) := by
  intro l
  induction l with
  | nil => intro s h; simpa using h
  | cons a t ih => intro s h; exact ih (g s a) (hstep s a h)

/-- C2: for `fn(x, y : Tensor[float32,(4)]) := prim_add(x, y)` with
`prim_add` primitive, the pool has one shape-map entry for
`Tensor[float32,(4)]` at constant index 0 and no literal constants; the
constant table is the single int64 shape tensor `[4]`; and the emitted
code is `LoadConst(0, r2)`, `AllocTensor(r2, float32, r3)`,
`InvokePacked(0, 3, 1, [0,1,3])`, `Ret(3)` — the output register
allocated before the call and appended after the flattened inputs. -/
theorem c2_primitive_add :
    (layoutConstantPool addMod 20).2 =
      [((DType.float32, [4]), (0, ShapeTensor.mk [1] DType.int64 [4] 1 0))] ∧
    (layoutConstantPool addMod 20).1 = [] ∧
    compileModule lp0 20 addMod =
      .ok (VMProgram.mk
        [VMFunction.mk 0 2
          [.loadConst 0 2, .allocTensor 2 DType.float32 3,
           .invokePacked 0 3 1 [0, 1, 3], .ret 3] 4]
        [.tensorShape (ShapeTensor.mk [1] DType.int64 [4] 1 0)]
        [0]
        [(0, 0)]) := by
  refine ⟨by decide, by decide, by decide⟩

/-- C1 counterexample: on `fn(c : bool, a, b : T) := if c then a else b`
the compiler does NOT emit the claimed sequence with `Goto(2)` at PC 1;
the patched `Goto` offset is `(after_false - after_true) + 1 = 1` (the
false branch of this program emits no instructions), not 2. -/
theorem c1_if_counterexample :
    ¬ ((compileModule lp0 20 ifMod).map (fun p => p.functions.map VMFunction.instructions) =
        .ok [[.ifInstr 0 1 2, .goto 2, .select 0 1 2 3, .ret 3]]) := by decide

/-- C1 (amended): the emitted sequence is `If(0, 1, 2)` at PC 0,
`Goto(1)` at PC 1, `Select(0, 1, 2, 3)` at PC 2 and `Ret(3)` at PC 3; the
patches are `instructions[p0].true_offset = 1`,
`instructions[p0].false_offset = p1 - p0` and
`instructions[p1 - 1].pc_offset = (p2 - p1) + 1`, where `p0`, `p1`, `p2`
are the instruction counts before the `If`, after the `Goto`, and after
the false branch. -/
theorem c1_if_amended :
    compileModule lp0 20 ifMod =
      .ok (VMProgram.mk
        [VMFunction.mk 0 3 [.ifInstr 0 1 2, .goto 1, .select 0 1 2 3, .ret 3] 4]
        [] [] [(0, 0)]) := by decide

/-- C3: the target string of a module built with target
`llvm -system-lib`, saved as textual IR and reloaded, is NOT carried into
the loaded module's state: `LoadIR` recovers the string from the
`tvm_target` flag into a local `std::string target_` that shadows the
member, so the member stays empty while only the target machine sees the
recovered string.  The spec's round-trip property fails on the code. -/
theorem c3_loadir_target_shadowed :
    loadIRRecoveredTarget (saveLL (llvmInit ["kernel0"] "llvm -system-lib" "x86-64-linux")) =
      "llvm -system-lib" ∧
    (loadIR (saveLL (llvmInit ["kernel0"] "llvm -system-lib" "x86-64-linux"))
        initialLLVMState).tmTarget = some "llvm -system-lib" ∧
    (loadIR (saveLL (llvmInit ["kernel0"] "llvm -system-lib" "x86-64-linux"))
        initialLLVMState).target = "" ∧
    (llvmInit ["kernel0"] "llvm -system-lib" "x86-64-linux").target = "llvm -system-lib" ∧
    ("" : String) ≠ "llvm -system-lib" := by
  refine ⟨by decide, by decide, by decide, by decide, by decide⟩

/-- C9: querying `__tvm_is_system_module` answers from the presence of the
`__tvm_module_startup` symbol and is a pure read: it returns the module
state unchanged, performs no lazy JIT initialization and takes no mutex
(empty effect list), for every module state — in particular when the
engine was never initialized — and independently of what `LazyInitJIT`
would do. -/
theorem c9_is_system_module_pure (jit : LLVMState → Except Unit LLVMState) (s : LLVMState) :
    getFunction jit s "__tvm_is_system_module" =
      .ok (.boolFunc (s.modFuncs.contains "__tvm_module_startup"), s, []) := rfl

theorem addConstantTensorShape_preserve (P : CPState → Prop) (key : TKey) (v : ShapeTensor)
    (hshape : ∀ s, lookupA key s.shapeMap = none → P s →
      P { s with shapeMap := (key, (s.index, v)) :: s.shapeMap, index := s.index + 1 })
    (s : CPState) (h : P s) : P (addConstantTensorShape key v s) := by
  unfold addConstantTensorShape
  cases hl : lookupA key s.shapeMap with
  | some _ => exact h
  | none => exact hshape s hl h

theorem cpCallShapes_preserve (P : CPState → Prop)
    (hshape : ∀ dt sh s, lookupA (dt, sh) s.shapeMap = none → P s →
      P { s with shapeMap := ((dt, sh), (s.index, getTensorConstant sh)) :: s.shapeMap,
                 index := s.index + 1 })
    (op : Expr) (ty : Ty) (s : CPState) (h : P s) : P (cpCallShapes op ty s) := by
  cases op <;> simp only [cpCallShapes] <;> try exact h
  case funcE ps b pr =>
    cases ty with
    | tensor dt sh => exact addConstantTensorShape_preserve P _ _ (hshape dt sh) s h
    | tuple fs =>
      refine foldl_preserve P _ ?_ fs s h
      intro st a hst
      cases a with
      | tensor dt sh => exact addConstantTensorShape_preserve P _ _ (hshape dt sh) st hst
      | tuple _ => exact hst
      | fnTy => exact hst
    | fnTy => exact h

theorem cpVisit_preserve (m : ModuleT) (P : CPState → Prop)
    (hvis : ∀ g s, P s → P { s with visited := g :: s.visited })
    (hconst : ∀ cid s, lookupA cid s.constMap = none → P s →
      P { s with constMap := (cid, s.index) :: s.constMap, index := s.index + 1 })
    (hshape : ∀ dt sh s, lookupA (dt, sh) s.shapeMap = none → P s →
      P { s with shapeMap := ((dt, sh), (s.index, getTensorConstant sh)) :: s.shapeMap,
                 index := s.index + 1 }) :
    ∀ fuel e s, P s → P (cpVisit m fuel e s) := by
  intro fuel
  induction fuel with
  | zero => intro e s h; simpa [cpVisit] using h
  | succ n ih =>
    intro e s h
    cases e with
    | var i => simpa [cpVisit] using h
    | globalVar g =>
      simp only [cpVisit]
      by_cases hc : s.visited.contains g = true
      · rw [if_pos hc]; exact h
      · rw [if_neg hc]
        cases hg : lookupA g m with
        | none => simp only [hg]; exact h
        | some fe => simp only [hg]; exact ih fe _ (hvis g s h)
    | const cid =>
      simp only [cpVisit]
      cases hl : lookupA cid s.constMap with
      | some _ => simpa [hl] using h
      | none => simpa [hl] using hconst cid s hl h
    | tuple fields =>
      simp only [cpVisit]
      exact foldl_preserve P _ (fun st a hst => ih a st hst) fields s h
    | tupleGetItem t idx => simpa [cpVisit] using ih t s h
    | letE v value body => simpa [cpVisit] using ih body _ (ih value s h)
    | ifE c tb fb => simpa [cpVisit] using ih fb _ (ih tb _ (ih c s h))
    | call op args ty =>
      simp only [cpVisit]
      exact cpCallShapes_preserve P hshape op ty _
        (foldl_preserve P _ (fun st a hst => ih a st hst) args s h)
    | funcE ps body pr => simpa [cpVisit] using ih body s h
    | constructorE tag => simpa [cpVisit] using h
    | matchE => simpa [cpVisit] using h

theorem cpInv_preserved (m : ModuleT) (fuel : Nat) (e : Expr) (s : CPState)
    (h : CPInv s) : CPInv (cpVisit m fuel e s) := by
  refine cpVisit_preserve m CPInv ?_ ?_ ?_ fuel e s h
  · intro g st hst; exact hst
  · intro cid st hl hst
    obtain ⟨h1, h2⟩ := hst
    constructor
    · simp only [CPState.mk.injEq, List.length_cons]; omega
    · show (((cid, st.index) :: st.constMap).map Prod.snd ++
          st.shapeMap.map (fun p => p.2.1)).Perm (List.range (st.index + 1))
      simp only [List.map_cons, List.cons_append]
      have h3 : (st.index :: (st.constMap.map Prod.snd ++ st.shapeMap.map (fun p => p.2.1))).Perm
          (st.index :: List.range st.index) := h2.cons _
      have h4 : (st.index :: List.range st.index).Perm (List.range st.index ++ [st.index]) :=
        @List.perm_append_comm _ [st.index] (List.range st.index)
      rw [List.range_succ]
      exact h3.trans h4
  · intro dt sh st hl hst
    obtain ⟨h1, h2⟩ := hst
    constructor
    · simp only [List.length_cons]; omega
    · show (st.constMap.map Prod.snd ++
          (((dt, sh), (st.index, getTensorConstant sh)) :: st.shapeMap).map
            (fun p => p.2.1)).Perm (List.range (st.index + 1))
      simp only [List.map_cons]
      have h3 : (st.constMap.map Prod.snd ++
          st.index :: st.shapeMap.map (fun p => p.2.1)).Perm
          (st.index :: (st.constMap.map Prod.snd ++ st.shapeMap.map (fun p => p.2.1))) :=
        List.perm_middle
      have h4 : (st.index :: (st.constMap.map Prod.snd ++
          st.shapeMap.map (fun p => p.2.1))).Perm (st.index :: List.range st.index) := h2.cons _
      have h5 : (st.index :: List.range st.index).Perm (List.range st.index ++ [st.index]) :=
        @List.perm_append_comm _ [st.index] (List.range st.index)
      rw [List.range_succ]
      exact (h3.trans h4).trans h5

theorem shapeEntries_preserved (m : ModuleT) (fuel : Nat) (e : Expr) (s : CPState)
    (h : ShapeEntriesOk s) : ShapeEntriesOk (cpVisit m fuel e s) := by
  refine cpVisit_preserve m ShapeEntriesOk ?_ ?_ ?_ fuel e s h
  · intro g st hst; exact hst
  · intro cid st hl hst; exact hst
  · intro dt sh st hl hst
    intro p hp
    rcases List.mem_cons.mp hp with h1 | h2
    · subst h1; rfl
    · exact hst p h2

theorem layout_indices_perm (m : ModuleT) (fuel : Nat) :
    ((layoutConstantPool m fuel).1.map Prod.snd ++
      (layoutConstantPool m fuel).2.map (fun p => p.2.1)).Perm
      (List.range ((layoutConstantPool m fuel).1.length +
        (layoutConstantPool m fuel).2.length)) := by
  have h : CPInv (m.foldl (fun acc p => cpVisit m fuel (.globalVar p.1) acc)
      { visited := [], constMap := [], shapeMap := [], index := 0 }) :=
    foldl_preserve CPInv _ (fun st a hst => cpInv_preserved m fuel _ st hst) m _
      ⟨rfl, by simp [cpIndices]⟩
  obtain ⟨h1, h2⟩ := h
  simp only [layoutConstantPool]
  rw [← h1]
  exact h2

theorem fillConstants_length (n : Nat) (cm : List (Nat × Nat)) (sm : ShapeMapT) :
    (fillConstants n cm sm).length = n := by
  unfold fillConstants
  have h1 : ∀ (l : List (Nat × Nat)) (base : List ConstObj), base.length = n →
      (l.foldl (fun acc p => acc.set p.2 (ConstObj.tensorData p.1)) base).length = n :=
    fun l base hb => foldl_preserve (fun (x : List ConstObj) => x.length = n) _
      (fun st a hst => by simpa [List.length_set] using hst) l base hb
  have h2 : ∀ (l : ShapeMapT) (base : List ConstObj), base.length = n →
      (l.foldl (fun acc p => acc.set p.2.1 (ConstObj.tensorShape p.2.2)) base).length = n :=
    fun l base hb => foldl_preserve (fun (x : List ConstObj) => x.length = n) _
      (fun st a hst => by simpa [List.length_set] using hst) l base hb
  exact h2 _ _ (h1 _ _ (by simp))

/-- C4: for every module that compiles, the program's constant array has
size `|ConstMap| + |ShapeMap|`, and the indices assigned to literal
constants and shape tensors — drawn from the pool's single counter — are
pairwise disjoint and together are exactly the dense range
`[0, |constants|)` (a permutation of `range`). -/
theorem c4_constant_pool_dense (lp : Expr → Kernel) (fuel : Nat) (m : ModuleT)
    (p : VMProgram) (hok : compileModule lp fuel m = .ok p) :
    p.constants.length =
      (layoutConstantPool m fuel).1.length + (layoutConstantPool m fuel).2.length ∧
    ((layoutConstantPool m fuel).1.map Prod.snd ++
        (layoutConstantPool m fuel).2.map (fun q => q.2.1)).Perm
      (List.range ((layoutConstantPool m fuel).1.length +
        (layoutConstantPool m fuel).2.length)) := by
  refine ⟨?_, layout_indices_perm m fuel⟩
  simp only [compileModule, compileModuleIter] at hok
  split at hok
  · exact absurd hok (by simp)
  · injection hok with h
    subst h
    exact fillConstants_length _ _ _

/-- Witness for C4 at a concrete module holding two literal constants. -/
theorem c4_witness :
    ∃ p, compileModule lp0 20 twoConstMod = .ok p ∧
      (p.constants.length =
        (layoutConstantPool twoConstMod 20).1.length +
          (layoutConstantPool twoConstMod 20).2.length ∧
      ((layoutConstantPool twoConstMod 20).1.map Prod.snd ++
          (layoutConstantPool twoConstMod 20).2.map (fun q => q.2.1)).Perm
        (List.range ((layoutConstantPool twoConstMod 20).1.length +
          (layoutConstantPool twoConstMod 20).2.length))) :=
  ⟨_, rfl, c4_constant_pool_dense lp0 20 twoConstMod _ rfl⟩

/-- C5: every entry of the `ShapeMap` produced by the constant-pool walk —
in particular the one registered for the checked `TensorType` return of
any primitive call site — is the 1-D int64 shape tensor of length equal to
the rank of the keyed tensor type, whose contents are exactly the type's
static extents, allocated on the host CPU device. -/
theorem c5_shape_tensor (m : ModuleT) (fuel : Nat) (dt : DType) (sh : List Int)
    (idx : Nat) (st : ShapeTensor)
    (hmem : ((dt, sh), (idx, st)) ∈ (layoutConstantPool m fuel).2) :
    st.dtype = DType.int64 ∧ st.shape = [(sh.length : Int)] ∧ st.data = sh ∧
      st.devType = kDLCPU ∧ st.devId = 0 := by
  have hall : ShapeEntriesOk (m.foldl (fun acc p => cpVisit m fuel (.globalVar p.1) acc)
      { visited := [], constMap := [], shapeMap := [], index := 0 }) :=
    foldl_preserve ShapeEntriesOk _ (fun st1 a hst => shapeEntries_preserved m fuel _ st1 hst)
      m _ (by intro p hp; simp at hp)
  have hmem1 : ((dt, sh), (idx, st)) ∈ (m.foldl
      (fun acc p => cpVisit m fuel (.globalVar p.1) acc)
      { visited := [], constMap := [], shapeMap := [], index := 0 }).shapeMap := hmem
  have heq := hall _ hmem1
  rw [show st = getTensorConstant sh from heq]
  exact ⟨rfl, rfl, rfl, rfl, rfl⟩

/-- Witness for C5 at the primitive-add module. -/
theorem c5_witness :
    ((DType.float32, ([4] : List Int)),
        (0, ShapeTensor.mk [1] DType.int64 [4] 1 0)) ∈ (layoutConstantPool addMod 20).2 ∧
      ((ShapeTensor.mk [1] DType.int64 [4] 1 0).dtype = DType.int64 ∧
       (ShapeTensor.mk [1] DType.int64 [4] 1 0).shape = [(1 : Int)] ∧
       (ShapeTensor.mk [1] DType.int64 [4] 1 0).data = [(4 : Int)] ∧
       (ShapeTensor.mk [1] DType.int64 [4] 1 0).devType = kDLCPU ∧
       (ShapeTensor.mk [1] DType.int64 [4] 1 0).devId = 0) := by
  constructor
  · decide
  · have h := c5_shape_tensor addMod 20 DType.float32 [4] 0
      (ShapeTensor.mk [1] DType.int64 [4] 1 0) (by decide)
    simpa using h

theorem addConstantTensorShape_constMap (key : TKey) (v : ShapeTensor) (s : CPState) :
    (addConstantTensorShape key v s).constMap = s.constMap := by
  unfold addConstantTensorShape
  cases lookupA key s.shapeMap <;> rfl

theorem cpCallShapes_constMap (op : Expr) (ty : Ty) (s : CPState) :
    (cpCallShapes op ty s).constMap = s.constMap :=
  cpCallShapes_preserve (fun st => st.constMap = s.constMap)
    (fun dt sh st hl hst => by
      simpa [addConstantTensorShape_constMap] using hst)
    op ty s rfl

/-- C10: the constant-pool visit of a `Call` node visits only the call's
arguments and never recurses into the callee expression.  Formally:
(1) the visit result is unchanged under replacing the callee `Function`
literal — parameters, body, primitive flag — by any other, so nothing
inside the callee is inspected beyond its head constructor; (2) the
`ConstMap` after visiting a call equals the `ConstMap` after folding the
visitor over the arguments alone (the shape-synthesis step adds no
constants); hence (3) a `Constant` node occurring only inside a callee —
here constant 7 inside the body of the primitive `Function` literal of
`callWithConstCallee` — is never assigned a `ConstMap` index. -/
theorem c10_callee_not_traversed (m : ModuleT) (fuel : Nat) (args : List Expr) (ty : Ty)
    (s : CPState) :
    (∀ ps1 b1 pr1 ps2 b2 pr2,
      cpVisit m fuel (.call (.funcE ps1 b1 pr1) args ty) s =
        cpVisit m fuel (.call (.funcE ps2 b2 pr2) args ty) s) ∧
    (∀ op, (cpVisit m (fuel + 1) (.call op args ty) s).constMap =
      (args.foldl (fun acc a => cpVisit m fuel a acc) s).constMap) ∧
    (cpVisit m fuel callWithConstCallee s).constMap = s.constMap := by
  refine ⟨?_, ?_, ?_⟩
  · intro ps1 b1 pr1 ps2 b2 pr2
    cases fuel with
    | zero => rfl
    | succ n => rfl
  · intro op
    simp only [cpVisit]
    exact cpCallShapes_constMap op ty _
  · cases fuel with
    | zero => rfl
    | succ n =>
      show (cpCallShapes primWithConst tFloat4
        (([] : List Expr).foldl (fun acc a => cpVisit m n a acc) s)).constMap = s.constMap
      exact cpCallShapes_constMap _ _ _

theorem lookupA_eq_none_of_not_mem {α : Type} {k : Nat} :
    ∀ {l : List (Nat × α)}, k ∉ l.map Prod.fst → lookupA k l = none := by
  intro l
  induction l with
  | nil => intro _; rfl
  | cons p t ih =>
    intro h
    simp only [List.map_cons, List.mem_cons] at h
    push_neg at h
    simp only [lookupA]
    rw [if_neg (fun he => h.1 he.symm)]
    exact ih h.2

theorem bindParams_spec : ∀ (ps : List (Nat × Ty)) (s : CompSt),
    (ps.map Prod.fst).Nodup →
    (∀ k ∈ ps.map Prod.fst, lookupA k s.varRegisterMap = none) →
    (bindParams ps s).registersNum = s.registersNum + ps.length ∧
    (bindParams ps s).varRegisterMap =
      ((ps.map Prod.fst).zip (List.range' s.registersNum ps.length)).reverse ++
        s.varRegisterMap := by
  intro ps
  induction ps with
  | nil => intro s _ _; simp [bindParams]
  | cons p t ih =>
    intro s hnd hfresh
    simp only [List.map_cons, List.nodup_cons] at hnd
    have hp : lookupA p.1 s.varRegisterMap = none :=
      hfresh p.1 (by simp)
    have hstep : bindParams (p :: t) s =
        bindParams t
          { s with registersNum := s.registersNum + 1,
                   varRegisterMap := (p.1, s.registersNum) :: s.varRegisterMap } := by
      simp only [bindParams, List.foldl_cons, newRegister, insertNoReplace, hp]
    rw [hstep]
    have hfresh1 : ∀ k ∈ t.map Prod.fst,
        lookupA k ((p.1, s.registersNum) :: s.varRegisterMap) = none := by
      intro k hk
      simp only [lookupA]
      rw [if_neg (show ¬ (p.1 = k) from fun he => hnd.1 (he ▸ hk))]
      exact hfresh k (by simp [hk])
    obtain ⟨h1, h2⟩ := ih
      { s with registersNum := s.registersNum + 1,
               varRegisterMap := (p.1, s.registersNum) :: s.varRegisterMap }
      hnd.2 hfresh1
    constructor
    · simp only [h1, List.length_cons]; omega
    · rw [h2]
      simp only [List.map_cons, List.length_cons]
      rw [List.range'_succ, List.zip_cons_cons, List.reverse_cons, List.append_assoc,
        List.singleton_append]

/-- C6: compiling a lifted closure (a top-level function whose body is
itself a function) binds the inner function's `m` parameters to registers
`0 … m-1` in order, then the `k` outer captured parameters to registers
`m … m+k-1`, and the stored parameter count of the produced `VMFunction`
equals `k + m`.  (Parameter variables are distinct nodes, as produced by
lambda lifting.) -/
theorem c6_closure_binding (outer inner : List (Nat × Ty)) (b : Expr) (g : Nat)
    (ctx : Ctx) (lp : Expr → Kernel) (fuel : Nat) (vf : VMFunction) (ctx1 : Ctx)
    (hnodup : ((inner ++ outer).map Prod.fst).Nodup)
    (hok : compileFunc lp fuel ctx g (.funcE outer (.funcE inner b false) false) =
      .ok (vf, ctx1)) :
    vf.paramsCount = outer.length + inner.length ∧
    (bindParams outer (bindParams inner (CompSt.mk [] [] 0 0 ctx))).varRegisterMap =
      (((inner ++ outer).map Prod.fst).zip
        (List.range' 0 (inner.length + outer.length))).reverse ∧
    (bindParams outer (bindParams inner (CompSt.mk [] [] 0 0 ctx))).registersNum =
      inner.length + outer.length := by
  simp only [List.map_append, List.nodup_append] at hnodup
  obtain ⟨hndI, hndO, hdisj⟩ := hnodup
  have hinner := bindParams_spec inner (CompSt.mk [] [] 0 0 ctx) hndI
    (by intro k _; rfl)
  obtain ⟨hA, hB⟩ := hinner
  have houter := bindParams_spec outer (bindParams inner (CompSt.mk [] [] 0 0 ctx)) hndO
    (by
      intro k hk
      rw [hB]
      apply lookupA_eq_none_of_not_mem
      simp only [List.append_nil, List.map_reverse, List.mem_reverse]
      rw [List.map_fst_zip _ _ (by simp)]
      intro hmem
      exact hdisj hmem hk)
  obtain ⟨hC, hD⟩ := houter
  have e1 : (CompSt.mk [] [] 0 0 ctx).registersNum = 0 := rfl
  have e2 : (CompSt.mk [] [] 0 0 ctx).varRegisterMap = ([] : List (Nat × Nat)) := rfl
  rw [e1, Nat.zero_add] at hA
  rw [e1, e2, List.append_nil] at hB
  rw [hA] at hC hD
  rw [hB] at hD
  refine ⟨?_, ?_, ?_⟩
  · simp only [compileFunc] at hok
    split at hok
    · exact absurd hok (by simp)
    · injection hok with h
      rw [Prod.mk.injEq] at h
      rw [← h.1]
      simp [isClosure, funcParams, funcBody]
  · have hsplit : List.range' 0 (inner.length + outer.length) =
        List.range' 0 inner.length ++ List.range' inner.length outer.length := by
      rw [show inner.length + outer.length = outer.length + inner.length from
        Nat.add_comm _ _]
      rw [← List.range'_append_1 0 inner.length outer.length, Nat.zero_add]
    rw [hD, hsplit, List.map_append, List.zip_append (by simp), List.reverse_append]
  · rw [hC]

/-- Witness for C6: a closure with 2 captures and 3 inner parameters. -/
theorem c6_witness :
    (VMFunction.mk 7 5 [.ret 0] 5).paramsCount = 2 + 3 ∧
    (bindParams [(4, tFloat4), (5, tFloat4)]
        (bindParams [(1, tFloat4), (2, tFloat4), (3, tFloat4)]
          (CompSt.mk [] [] 0 0 (Ctx.mk [] [] [] [] [] [])))).varRegisterMap =
      ((([(1, tFloat4), (2, tFloat4), (3, tFloat4)] ++
          [(4, tFloat4), (5, tFloat4)]).map Prod.fst).zip
        (List.range' 0 (3 + 2))).reverse ∧
    (bindParams [(4, tFloat4), (5, tFloat4)]
        (bindParams [(1, tFloat4), (2, tFloat4), (3, tFloat4)]
          (CompSt.mk [] [] 0 0 (Ctx.mk [] [] [] [] [] [])))).registersNum = 3 + 2 := by
  have h := c6_closure_binding [(4, tFloat4), (5, tFloat4)]
    [(1, tFloat4), (2, tFloat4), (3, tFloat4)] (.var 1) 7
    (Ctx.mk [] [] [] [] [] []) lp0 20 (VMFunction.mk 7 5 [.ret 0] 5)
    (Ctx.mk [] [] [] [] [] []) (by decide) rfl
  simpa using h

theorem foldl_set_getElem? {α : Type} (ix : α → Nat) (ob : α → ConstObj) :
    ∀ (l : List α), (l.map ix).Nodup → ∀ (base : List ConstObj) (i : Nat),
      (l.foldl (fun acc p => acc.set (ix p) (ob p)) base)[i]? =
        match l.find? (fun p => ix p == i) with
        | some p => (base.set i (ob p))[i]?
        | none => base[i]? := by
  intro l
  induction l with
  | nil => intro _ base i; rfl
  | cons p t ih =>
    intro hnd base i
    simp only [List.map_cons, List.nodup_cons] at hnd
    simp only [List.foldl_cons]
    rw [ih hnd.2]
    by_cases hpi : ix p = i
    · have hfind : t.find? (fun q => ix q == i) = none := by
        apply List.find?_eq_none.mpr
        intro q hq
        simp only [beq_iff_eq]
        intro hqi
        exact hnd.1 (by rw [hpi, ← hqi]; exact List.mem_map_of_mem ix hq)
      rw [hfind, List.find?_cons_of_pos _ (by simp [hpi]), hpi]
    · rw [List.find?_cons_of_neg _ (by simp [hpi])]
      cases hft : t.find? (fun q => ix q == i) with
      | some q =>
        show ((base.set (ix p) (ob p)).set i (ob q))[i]? = (base.set i (ob q))[i]?
        have hx : ∀ (b : List ConstObj), b.length = base.length →
            (b.set i (ob q))[i]? = if i < base.length then some (ob q) else none := by
          intro b hb
          rw [List.getElem?_set, hb]
          simp
        rw [hx _ (by simp), hx base rfl]
      | none =>
        show (base.set (ix p) (ob p))[i]? = base[i]?
        exact List.getElem?_set_ne hpi

theorem find?_perm_of_nodup_keys {α : Type} (ix : α → Nat) (i : Nat)
    (l l2 : List α) (hperm : l.Perm l2) (hnd : (l.map ix).Nodup) :
    l.find? (fun p => ix p == i) = l2.find? (fun p => ix p == i) := by
  cases hf : l.find? (fun p => ix p == i) with
  | none =>
    cases hf2 : l2.find? (fun p => ix p == i) with
    | none => rfl
    | some q =>
      have hq := List.find?_some hf2
      have hqm := List.mem_of_find?_eq_some hf2
      exact absurd hq (List.find?_eq_none.mp hf q (hperm.mem_iff.mpr hqm))
  | some q =>
    have hq := List.find?_some hf
    have hqm := List.mem_of_find?_eq_some hf
    cases hf2 : l2.find? (fun p => ix p == i) with
    | none =>
      exact absurd hq (List.find?_eq_none.mp hf2 q (hperm.mem_iff.mp hqm))
    | some r =>
      have hr := List.find?_some hf2
      have hrm := List.mem_of_find?_eq_some hf2
      have hrl : r ∈ l := hperm.mem_iff.mpr hrm
      have hkeys : ix q = ix r := by
        simp only [beq_iff_eq] at hq hr
        rw [hq, hr]
      rw [List.inj_on_of_nodup_map hnd hqm hrl hkeys]

theorem foldl_set_perm {α : Type} (ix : α → Nat) (ob : α → ConstObj)
    (l l2 : List α) (hperm : l.Perm l2) (hnd : (l.map ix).Nodup) (base : List ConstObj) :
    l.foldl (fun acc p => acc.set (ix p) (ob p)) base =
      l2.foldl (fun acc p => acc.set (ix p) (ob p)) base := by
  have hnd2 : (l2.map ix).Nodup := (hperm.map ix).nodup_iff.mp hnd
  apply List.ext_getElem?
  intro i
  rw [foldl_set_getElem? ix ob l hnd base i, foldl_set_getElem? ix ob l2 hnd2 base i,
    ← find?_perm_of_nodup_keys ix i l l2 hperm hnd]

theorem fillConstants_perm (n : Nat) (cm cm2 : List (Nat × Nat)) (sm sm2 : ShapeMapT)
    (hcm : cm2.Perm cm) (hsm : sm2.Perm sm)
    (hndc : (cm.map Prod.snd).Nodup) (hnds : (sm.map (fun p => p.2.1)).Nodup) :
    fillConstants n cm2 sm2 = fillConstants n cm sm := by
  simp only [fillConstants]
  have h1 : cm.foldl (fun acc p => acc.set p.2 (ConstObj.tensorData p.1))
        (List.replicate n ConstObj.emptyObj) =
      cm2.foldl (fun acc p => acc.set p.2 (ConstObj.tensorData p.1))
        (List.replicate n ConstObj.emptyObj) :=
    foldl_set_perm (fun p => p.2) (fun p => ConstObj.tensorData p.1) cm cm2 hcm.symm hndc _
  rw [← h1]
  exact (foldl_set_perm (fun p => p.2.1) (fun p => ConstObj.tensorShape p.2.2) sm sm2
    hsm.symm hnds _).symm

/-- C7: compilation is deterministic.  The compiler state is rebuilt
freshly by every `CompileModule` run and the compile engine is a
deterministic external service, so the only step whose result the source
leaves to an unspecified order is the constant-array fill, which iterates
two `unordered_map`s.  For every iteration order of `const_map` and of
`const_tensor_shape_map` (any permutation of their entries), the compiled
program — its `VMFunction`s and its constant table — is byte-identical to
the canonical run; hence two runs on the same module always agree. -/
theorem c7_deterministic (lp : Expr → Kernel) (fuel : Nat) (m : ModuleT)
    (cmIter : List (Nat × Nat)) (smIter : ShapeMapT)
    (hcm : cmIter.Perm (layoutConstantPool m fuel).1)
    (hsm : smIter.Perm (layoutConstantPool m fuel).2) :
    compileModuleIter lp fuel m cmIter smIter = compileModule lp fuel m := by
  have hnd : (((layoutConstantPool m fuel).1.map Prod.snd) ++
      ((layoutConstantPool m fuel).2.map (fun p => p.2.1))).Nodup :=
    (layout_indices_perm m fuel).nodup_iff.mpr (List.nodup_range _)
  have hfill : fillConstants
      ((layoutConstantPool m fuel).1.length + (layoutConstantPool m fuel).2.length)
      cmIter smIter =
    fillConstants
      ((layoutConstantPool m fuel).1.length + (layoutConstantPool m fuel).2.length)
      (layoutConstantPool m fuel).1 (layoutConstantPool m fuel).2 :=
    fillConstants_perm _ _ _ _ _ hcm hsm hnd.of_append_left hnd.of_append_right
  simp only [compileModule, compileModuleIter]
  rw [hfill]

/-- Witness for C7: compiling the two-constant module with the reversed
`const_map` iteration order yields the same program as the canonical
order. -/
theorem c7_witness :
    compileModuleIter lp0 20 twoConstMod [(100, 0), (101, 1)]
        (layoutConstantPool twoConstMod 20).2 =
      compileModule lp0 20 twoConstMod :=
  c7_deterministic lp0 20 twoConstMod [(100, 0), (101, 1)]
    (layoutConstantPool twoConstMod 20).2 (by decide) (List.Perm.refl _)

/-- C8: for any name other than the special system-module query, once the
engine exists, `GetFunction` aliases the well-known main-entry name to the
module's entry symbol before the lookup, and a null symbol-address lookup
yields the absent/empty callable (`PackedFunc()`), not an abort: the call
returns normally with the module state untouched, having only taken the
mutex. -/
theorem c8_null_lookup_absent (jit : LLVMState → Except Unit LLVMState) (s : LLVMState)
    (eng : String → Nat) (name : String) (hee : s.ee = some eng)
    (hns : name ≠ "__tvm_is_system_module")
    (hnull : getFunctionAddr s (if name = tvmModuleMain then s.entryFunc else name) = 0) :
    getFunction jit s name = .ok (.emptyPF, s, [.lockMutex]) ∧
    getFunction jit s tvmModuleMain =
      .ok ((if getFunctionAddr s s.entryFunc = 0 then PackedFuncR.emptyPF
            else PackedFuncR.wrapped (getFunctionAddr s s.entryFunc)), s, [.lockMutex]) := by
  constructor
  · simp only [getFunction, hee]
    rw [if_neg hns]
    simp [hnull]
  · simp only [getFunction, hee]
    rw [if_neg (show tvmModuleMain ≠ "__tvm_is_system_module" by decide)]
    simp [tvmModuleMain]

/-- Witness for C8: a JIT-initialized module holding only `kernelA`; the
name `missing` resolves to a null address and gets the empty callable. -/
theorem c8_witness :
    getFunction (fun st => .ok st)
      (LLVMState.mk "llvm" "kernelA" (some (fun n => if n = "kernelA" then 7 else 0))
        ["kernelA"] [] "" (some "llvm")) "missing" =
      .ok (.emptyPF,
        LLVMState.mk "llvm" "kernelA" (some (fun n => if n = "kernelA" then 7 else 0))
          ["kernelA"] [] "" (some "llvm"), [.lockMutex]) :=
  (c8_null_lookup_absent (fun st => .ok st)
    (LLVMState.mk "llvm" "kernelA" (some (fun n => if n = "kernelA" then 7 else 0))
      ["kernelA"] [] "" (some "llvm"))
    (fun n => if n = "kernelA" then 7 else 0) "missing" rfl (by decide) (by decide)).1
